import Mathlib

/-!
Shallow embedding of the core of the `rlt` load-testing framework, together
with theorems checking its natural-language specification against the code.

Modelling conventions:
* `f64` values are modelled as exact rationals (`ℚ`); the comparison logic
  only uses field arithmetic and order, which ℚ shares with the reals.
* Instants and durations are modelled as natural numbers (`Nat` ticks);
  Rust's saturating `Instant::elapsed` becomes truncated subtraction.
* `HashMap` accumulators are modelled as association lists updated in place
  (`entry(..).or_default()` becomes update-first-match-or-append).
* Fallible operations (`unwrap` on a possibly-empty deque) return `Option`.
-/

namespace Rlt

/-! ## Comparator data model (src/baseline/compare.rs) -/

/-- Delta value representation - either percentage change or percentage points. -/
inductive DeltaValue where
  /-- Percentage change: (current - baseline) / baseline * 100. -/
  | Percent (v : ℚ)
  /-- Percentage points (absolute difference * 100, for ratios like success_ratio). -/
  | Points (v : ℚ)
deriving DecidableEq

/-- Status of a metric comparison. -/
inductive DeltaStatus where
  | Improved
  | Regressed
  | Unchanged
deriving DecidableEq

/-- Comparison result for a single metric. -/
structure Delta where
  current : ℚ
  baseline : ℚ
  ratio : Option ℚ
  delta : Option DeltaValue
  status : DeltaStatus
deriving DecidableEq

/-- Metrics that can be used for regression detection. -/
inductive RegressionMetric where
  | ItersRate
  | ItemsRate
  | BytesRate
  | LatencyMean
  | LatencyMedian
  | LatencyP90
  | LatencyP99
  | LatencyMax
  | SuccessRatio
deriving DecidableEq

/-- Latency comparison results. -/
structure LatencyDeltas where
  mean : Delta
  median : Delta
  p90 : Option Delta
  p99 : Option Delta
  max : Delta

/-- Throughput comparison results. -/
structure ThroughputDeltas where
  iters_rate : Delta
  items_rate : Option Delta
  bytes_rate : Option Delta

/-- Overall verdict of the comparison. -/
inductive Verdict where
  | Improved
  | Regressed
  | Unchanged
  | Mixed
deriving DecidableEq

/-- Embedding of `calculate_success_ratio_delta` (higher is better, uses
percentage points). -/
def calculate_success_ratio_delta (current baseline noise_threshold : ℚ) : Delta :=
  let ratio : Option ℚ :=
    if baseline = 0 then
      if current = 0 then some 1 else none
    else some (current / baseline)
  let delta_points := (current - baseline) * 100
  let delta := some (DeltaValue.Points delta_points)
  let status :=
    if |delta_points| ≤ noise_threshold then DeltaStatus.Unchanged
    else if 0 < delta_points then DeltaStatus.Improved
    else DeltaStatus.Regressed
  { current := current, baseline := baseline, ratio := ratio, delta := delta, status := status }

/-- Embedding of `calculate_delta`. `higher_is_better` is true for throughput
metrics and false for latency metrics. -/
def calculate_delta (current baseline noise_threshold : ℚ) (higher_is_better : Bool) : Delta :=
  if baseline = 0 ∧ current = 0 then
    { current := current, baseline := baseline, ratio := some 1,
      delta := some (DeltaValue.Percent 0), status := DeltaStatus.Unchanged }
  else
    let rd : Option ℚ × Option DeltaValue :=
      if baseline = 0 then (none, none)
      else (some (current / baseline), some (DeltaValue.Percent ((current - baseline) / baseline * 100)))
    let status :=
      match rd.1 with
      | some r =>
        let percent_change := |r - 1| * 100
        if percent_change ≤ noise_threshold then DeltaStatus.Unchanged
        else
          let is_improved := if higher_is_better then 1 < r else r < 1
          if is_improved then DeltaStatus.Improved else DeltaStatus.Regressed
      | none =>
        if higher_is_better then DeltaStatus.Improved else DeltaStatus.Regressed
    { current := current, baseline := baseline, ratio := rd.1, delta := rd.2, status := status }

/-- Embedding of `calculate_throughput_delta` (higher is better). -/
def calculate_throughput_delta (current baseline noise_threshold : ℚ) : Delta :=
  calculate_delta current baseline noise_threshold true

/-- Embedding of `calculate_latency_delta` (lower is better). -/
def calculate_latency_delta (current baseline noise_threshold : ℚ) : Delta :=
  calculate_delta current baseline noise_threshold false

/-- Availability of the per-metric status inside `calculate_verdict`'s loop. -/
def metricStatus (throughput : ThroughputDeltas) (latency : Option LatencyDeltas)
    (success_ratio : Delta) : RegressionMetric → Option DeltaStatus
  | .ItersRate => some throughput.iters_rate.status
  | .ItemsRate => throughput.items_rate.map (fun d => d.status)
  | .BytesRate => throughput.bytes_rate.map (fun d => d.status)
  | .LatencyMean => latency.map (fun l => l.mean.status)
  | .LatencyMedian => latency.map (fun l => l.median.status)
  | .LatencyP90 => latency.bind (fun l => l.p90.map (fun d => d.status))
  | .LatencyP99 => latency.bind (fun l => l.p99.map (fun d => d.status))
  | .LatencyMax => latency.map (fun l => l.max.status)
  | .SuccessRatio => some success_ratio.status

/-- Embedding of `calculate_verdict`: fold over the selected metrics collecting
available statuses and skipped metrics, then derive the verdict. -/
def calculate_verdict (throughput : ThroughputDeltas) (latency : Option LatencyDeltas)
    (success_ratio : Delta) (metrics : List RegressionMetric) :
    Verdict × List RegressionMetric :=
  let pair := metrics.foldl
    (fun (acc : List DeltaStatus × List RegressionMetric) metric =>
      match metricStatus throughput latency success_ratio metric with
      | some s => (acc.1 ++ [s], acc.2)
      | none => (acc.1, acc.2 ++ [metric]))
    ([], [])
  let statuses := pair.1
  let skipped := pair.2
  let has_improved := DeltaStatus.Improved ∈ statuses
  let has_regressed := DeltaStatus.Regressed ∈ statuses
  let verdict :=
    if has_improved then
      if has_regressed then Verdict.Mixed else Verdict.Improved
    else
      if has_regressed then Verdict.Regressed else Verdict.Unchanged
  (verdict, skipped)

/-- The spec's uniform three-case per-metric delta definition (§4.9),
written from the spec's words for comparison with the code. -/
def DeltaSpec (current baseline noise_threshold : ℚ) (higher_is_better : Bool)
    (d : Delta) : Prop :=
  (baseline = 0 → current = 0 →
    d.ratio = some 1 ∧ d.delta = some (DeltaValue.Percent 0) ∧ d.status = DeltaStatus.Unchanged) ∧
  (baseline = 0 → current ≠ 0 →
    d.ratio = none ∧ d.delta = none ∧
    d.status = (if higher_is_better then DeltaStatus.Improved else DeltaStatus.Regressed)) ∧
  (baseline ≠ 0 →
    d.ratio = some (current / baseline) ∧
    d.delta = some (DeltaValue.Percent ((current / baseline - 1) * 100)) ∧
    (d.status = DeltaStatus.Unchanged ↔ |current / baseline - 1| * 100 ≤ noise_threshold) ∧
    (¬ |current / baseline - 1| * 100 ≤ noise_threshold →
      ((d.status = DeltaStatus.Improved ↔
        (higher_is_better = true ∧ 1 < current / baseline) ∨
        (higher_is_better = false ∧ current / baseline < 1)) ∧
       (d.status = DeltaStatus.Regressed ↔
        ¬ ((higher_is_better = true ∧ 1 < current / baseline) ∨
           (higher_is_better = false ∧ current / baseline < 1))))))

theorem percent_delta_eq_ratio_form (current baseline : ℚ) (h : baseline ≠ 0) :
    (current - baseline) / baseline * 100 = (current / baseline - 1) * 100 := by
  field_simp

/-- C3: `calculate_delta` realises the spec's three-case per-metric delta
definition for every noise threshold `≥ 0` and both metric directions. -/
theorem calculate_delta_meets_spec (current baseline noise_threshold : ℚ)
    (higher_is_better : Bool) (hnoise : 0 ≤ noise_threshold) :
    DeltaSpec current baseline noise_threshold higher_is_better
      (calculate_delta current baseline noise_threshold higher_is_better) := by
  unfold DeltaSpec calculate_delta
  by_cases hb : baseline = 0
  · by_cases hc : current = 0
    · simp [hb, hc]
    · refine ⟨fun _ h => absurd h hc, fun _ _ => ?_, fun h => absurd hb h⟩
      simp only [hb, hc, if_pos (Eq.refl (0 : ℚ))]
      have : ¬ ((0 : ℚ) = 0 ∧ current = 0) := fun h => hc h.2
      simp [this, hc]
  · have hcond : ¬ (baseline = 0 ∧ current = 0) := fun h => hb h.1
    refine ⟨fun h => absurd h hb, fun h => absurd h hb, fun _ => ?_⟩
    simp only [if_neg hcond, if_neg hb]
    refine ⟨?_, ?_, ?_, ?_⟩
    · simp
    · simp [percent_delta_eq_ratio_form current baseline hb]
    · by_cases hΔ : |current / baseline - 1| * 100 ≤ noise_threshold
      · simp [hΔ]
      · simp only [if_neg hΔ]
        constructor
        · intro h
          split at h <;> split at h <;> simp at h
        · intro h
          exact absurd h hΔ
    · intro hΔ
      simp only [if_neg hΔ]
      cases higher_is_better <;>
        by_cases hr : 1 < current / baseline <;> by_cases hr' : current / baseline < 1 <;>
        simp_all

/-- Witness for `calculate_delta_meets_spec` at a concrete input. -/
theorem calculate_delta_meets_spec_witness :
    (0 : ℚ) ≤ 1 ∧ DeltaSpec 2 1 1 true (calculate_delta 2 1 1 true) :=
  ⟨by norm_num, calculate_delta_meets_spec 2 1 1 true (by norm_num)⟩

/-- C1 counterexample: with baseline success ratio `1/2`, current `11/20` and
noise threshold `6`, the code reports `Unchanged` (the points delta is `5 ≤ 6`)
even though the relative change `|ratio - 1|·100 = 10` exceeds the threshold,
so the spec's relative-change rule would demand `Improved`. -/
theorem success_ratio_delta_not_relative_counterexample :
    (calculate_success_ratio_delta (11/20) (1/2) 6).status = DeltaStatus.Unchanged ∧
    ¬ |(11/20 : ℚ) / (1/2) - 1| * 100 ≤ 6 := by
  constructor
  · norm_num [calculate_success_ratio_delta, abs_le]
  · rw [show (11/20 : ℚ) / (1/2) - 1 = 1/10 by norm_num,
      abs_of_nonneg (show (0:ℚ) ≤ 1/10 by norm_num)]
    norm_num

/-- C1 (amended): `calculate_success_ratio_delta` uses percentage points:
the delta is `Points ((current - baseline)·100)`, the status is `Unchanged`
iff `|current - baseline|·100 ≤ noise_threshold`, otherwise `Improved` iff
the points delta is positive (higher success ratio is better) and `Regressed`
otherwise; the ratio is still `current / baseline` when the baseline is
non-zero (`1` when both are zero, absent when only the baseline is zero). -/
theorem success_ratio_delta_uses_points (current baseline noise_threshold : ℚ) :
    (calculate_success_ratio_delta current baseline noise_threshold).current = current ∧
    (calculate_success_ratio_delta current baseline noise_threshold).baseline = baseline ∧
    (calculate_success_ratio_delta current baseline noise_threshold).ratio =
      (if baseline = 0 then if current = 0 then some 1 else none
       else some (current / baseline)) ∧
    (calculate_success_ratio_delta current baseline noise_threshold).delta =
      some (DeltaValue.Points ((current - baseline) * 100)) ∧
    ((calculate_success_ratio_delta current baseline noise_threshold).status =
        DeltaStatus.Unchanged ↔ |(current - baseline) * 100| ≤ noise_threshold) ∧
    ((calculate_success_ratio_delta current baseline noise_threshold).status =
        DeltaStatus.Improved ↔
      ¬ |(current - baseline) * 100| ≤ noise_threshold ∧ 0 < (current - baseline) * 100) ∧
    ((calculate_success_ratio_delta current baseline noise_threshold).status =
        DeltaStatus.Regressed ↔
      ¬ |(current - baseline) * 100| ≤ noise_threshold ∧ ¬ 0 < (current - baseline) * 100) := by
  unfold calculate_success_ratio_delta
  refine ⟨rfl, rfl, rfl, rfl, ?_, ?_, ?_⟩ <;>
    by_cases hΔ : |(current - baseline) * 100| ≤ noise_threshold <;>
    by_cases hp : 0 < (current - baseline) * 100 <;>
    simp [hΔ, hp]

/-- Spine of `calculate_verdict`'s loop: collecting statuses is `filterMap`,
collecting skipped metrics is `filter` on unavailability. -/
theorem verdict_fold_spec (f : RegressionMetric → Option DeltaStatus)
    (l : List RegressionMetric) (s0 : List DeltaStatus) (k0 : List RegressionMetric) :
    l.foldl
      (fun (acc : List DeltaStatus × List RegressionMetric) metric =>
        match f metric with
        | some s => (acc.1 ++ [s], acc.2)
        | none => (acc.1, acc.2 ++ [metric]))
      (s0, k0)
    = (s0 ++ l.filterMap f, k0 ++ l.filter (fun m => (f m).isNone)) := by
  induction l generalizing s0 k0 with
  | nil => simp
  | cons hd tl ih =>
    cases hfh : f hd with
    | some s =>
      simp only [List.foldl_cons, hfh, List.filterMap_cons, List.filter_cons,
        Option.isNone_some, ih]
      simp [hfh]
    | none =>
      simp only [List.foldl_cons, hfh, List.filterMap_cons, List.filter_cons,
        Option.isNone_none, ih]
      simp [hfh]

/-- C4: the verdict over the selected regression metrics, after skipping every
metric whose delta is unavailable, is `Improved` iff some remaining status is
Improved and none Regressed, `Regressed` iff some is Regressed and none
Improved, `Mixed` iff both are present, and `Unchanged` iff every remaining
status is Unchanged (in particular when all selected metrics were skipped);
the skipped metrics are returned alongside the verdict. -/
theorem calculate_verdict_meets_spec (throughput : ThroughputDeltas)
    (latency : Option LatencyDeltas) (success_ratio : Delta)
    (metrics : List RegressionMetric) :
    ((calculate_verdict throughput latency success_ratio metrics).1 = Verdict.Improved ↔
      DeltaStatus.Improved ∈ metrics.filterMap (metricStatus throughput latency success_ratio) ∧
      DeltaStatus.Regressed ∉ metrics.filterMap (metricStatus throughput latency success_ratio)) ∧
    ((calculate_verdict throughput latency success_ratio metrics).1 = Verdict.Regressed ↔
      DeltaStatus.Regressed ∈ metrics.filterMap (metricStatus throughput latency success_ratio) ∧
      DeltaStatus.Improved ∉ metrics.filterMap (metricStatus throughput latency success_ratio)) ∧
    ((calculate_verdict throughput latency success_ratio metrics).1 = Verdict.Mixed ↔
      DeltaStatus.Improved ∈ metrics.filterMap (metricStatus throughput latency success_ratio) ∧
      DeltaStatus.Regressed ∈ metrics.filterMap (metricStatus throughput latency success_ratio)) ∧
    ((calculate_verdict throughput latency success_ratio metrics).1 = Verdict.Unchanged ↔
      ∀ s ∈ metrics.filterMap (metricStatus throughput latency success_ratio),
        s = DeltaStatus.Unchanged) ∧
    (calculate_verdict throughput latency success_ratio metrics).2 =
      metrics.filter (fun m => (metricStatus throughput latency success_ratio m).isNone) := by
  unfold calculate_verdict
  rw [verdict_fold_spec]
  simp only [List.nil_append]
  set sts := metrics.filterMap (metricStatus throughput latency success_ratio) with hsts
  by_cases hi : DeltaStatus.Improved ∈ sts <;> by_cases hr : DeltaStatus.Regressed ∈ sts
  · simp only [if_pos hi, if_pos hr]
    refine ⟨by simp [hi, hr], by simp [hi, hr], by simp [hi, hr], ?_, by simp⟩
    constructor
    · intro h
      exact absurd h (by simp)
    · intro h
      exact absurd (h _ hi) (by simp)
  · simp only [if_pos hi, if_neg hr]
    refine ⟨by simp [hi, hr], by simp [hi, hr], by simp [hi, hr], ?_, by simp⟩
    constructor
    · intro h
      exact absurd h (by simp)
    · intro h
      exact absurd (h _ hi) (by simp)
  · simp only [if_neg hi, if_pos hr]
    refine ⟨by simp [hi, hr], by simp [hi, hr], by simp [hi, hr], ?_, by simp⟩
    constructor
    · intro h
      exact absurd h (by simp)
    · intro h
      exact absurd (h _ hr) (by simp)
  · simp only [if_neg hi, if_neg hr]
    refine ⟨by simp [hi, hr], by simp [hi, hr], by simp [hi, hr], ?_, by simp⟩
    constructor
    · intro _ s hs
      cases s with
      | Improved => exact absurd hs hi
      | Regressed => exact absurd hs hr
      | Unchanged => rfl
    · intro _
      trivial

/-! ## Status, counters and per-status statistics
(src/status.rs, src/stats/counter.rs, src/stats/mod.rs) -/

/-- Kind of an iteration status (src/status.rs). -/
inductive StatusKind where
  | Success
  | Error
  | ClientError
  | ServerError
deriving DecidableEq

/-- The iteration status: a kind together with a workload-chosen `i64` code. -/
structure Status where
  kind : StatusKind
  code : ℤ
deriving DecidableEq

/-- The iteration report (src/report.rs); durations are modelled in ticks. -/
structure IterReport where
  duration : ℕ
  status : Status
  bytes : ℕ
  items : ℕ
deriving DecidableEq

/-- A counter for accumulating benchmark metrics (src/stats/counter.rs). -/
structure Counter where
  iters : ℕ
  items : ℕ
  bytes : ℕ
  latency_sum : ℕ
deriving DecidableEq

/-- `Counter::default()`. -/
def Counter.zero : Counter := ⟨0, 0, 0, 0⟩

/-- `Counter::record`: accumulate metrics from a single iteration report. -/
def Counter.record (c : Counter) (report : IterReport) : Counter :=
  { iters := c.iters + 1
    items := c.items + report.items
    bytes := c.bytes + report.bytes
    latency_sum := c.latency_sum + report.duration }

/-- Field-wise sum of two counters (used by the spec's invariant wording). -/
def Counter.add (a b : Counter) : Counter :=
  ⟨a.iters + b.iters, a.items + b.items, a.bytes + b.bytes, a.latency_sum + b.latency_sum⟩

/-- Field-wise sum of a list of counters. -/
def sumCounters (l : List Counter) : Counter :=
  l.foldr Counter.add Counter.zero

/-- `by_status.entry(status).or_default().record(report)` on the association
list modelling the `HashMap`. -/
def recordEntry (m : List (Status × Counter)) (s : Status) (report : IterReport) :
    List (Status × Counter) :=
  match m with
  | [] => [(s, Counter.zero.record report)]
  | (k, c) :: rest =>
    if k = s then (k, c.record report) :: rest
    else (k, c) :: recordEntry rest s report

/-- Aggregated statistics for benchmark iterations (src/stats/mod.rs). -/
structure IterStats where
  overall : Counter
  by_status : List (Status × Counter)
deriving DecidableEq

/-- `IterStats::new()`. -/
def IterStats.new : IterStats := ⟨Counter.zero, []⟩

/-- `IterStats::record`: update the overall counter and the per-status bucket. -/
def IterStats.record (st : IterStats) (report : IterReport) : IterStats :=
  { overall := st.overall.record report
    by_status := recordEntry st.by_status report.status report }

/-- The spec's `IterStats` invariant: the overall counter is the field-wise
sum of all per-status counters. -/
def StatsInv (st : IterStats) : Prop :=
  st.overall = sumCounters (st.by_status.map Prod.snd)

theorem Counter.add_record (a b : Counter) (r : IterReport) :
    Counter.add a (b.record r) = (Counter.add a b).record r := by
  simp [Counter.add, Counter.record]
  omega

theorem sumCounters_recordEntry (m : List (Status × Counter)) (s : Status) (r : IterReport) :
    sumCounters ((recordEntry m s r).map Prod.snd) =
      (sumCounters (m.map Prod.snd)).record r := by
  induction m with
  | nil =>
    simp [recordEntry, sumCounters, Counter.add, Counter.zero, Counter.record]
  | cons hd tl ih =>
    obtain ⟨k, c⟩ := hd
    by_cases hk : k = s
    · simp only [recordEntry, if_pos hk, List.map_cons, sumCounters, List.foldr_cons]
      have : Counter.add (c.record r) (List.foldr Counter.add Counter.zero (tl.map Prod.snd)) =
          (Counter.add c (List.foldr Counter.add Counter.zero (tl.map Prod.snd))).record r := by
        simp [Counter.add, Counter.record]
        omega
      exact this
    · simp only [recordEntry, if_neg hk, List.map_cons, sumCounters, List.foldr_cons] at *
      rw [ih]
      exact Counter.add_record c _ r

/-- C6 helper: the invariant is preserved by `IterStats::record`. -/
theorem statsInv_record (st : IterStats) (r : IterReport) (h : StatsInv st) :
    StatsInv (st.record r) := by
  unfold StatsInv IterStats.record at *
  rw [sumCounters_recordEntry, ← h]

theorem statsInv_foldl (reports : List IterReport) (st : IterStats) (h : StatsInv st) :
    StatsInv (reports.foldl IterStats.record st) := by
  induction reports generalizing st with
  | nil => exact h
  | cons hd tl ih =>
    simp only [List.foldl_cons]
    exact ih _ (statsInv_record st hd h)

/-- C6: starting from the empty `IterStats`, the overall counter equals the
field-wise sum of the per-status counters after every sequence of
`IterStats::record` calls, and the invariant is preserved by every update. -/
theorem iterStats_overall_eq_sum_by_status :
    (∀ reports : List IterReport,
      StatsInv (reports.foldl IterStats.record IterStats.new)) ∧
    (∀ (st : IterStats) (r : IterReport), StatsInv st → StatsInv (st.record r)) := by
  constructor
  · intro reports
    exact statsInv_foldl reports IterStats.new (by simp [StatsInv, IterStats.new, sumCounters])
  · exact statsInv_record

/-- Witness for `iterStats_overall_eq_sum_by_status` at a concrete input. -/
theorem iterStats_overall_eq_sum_by_status_witness :
    StatsInv ([({ duration := 3, status := ⟨StatusKind.Success, 200⟩, bytes := 7, items := 2 } :
        IterReport)].foldl IterStats.record IterStats.new) ∧
    StatsInv (IterStats.record IterStats.new
      { duration := 3, status := ⟨StatusKind.Success, 200⟩, bytes := 7, items := 2 }) :=
  ⟨iterStats_overall_eq_sum_by_status.1 _,
    iterStats_overall_eq_sum_by_status.2 IterStats.new _ (by simp [StatsInv, IterStats.new, sumCounters])⟩

/-! ## Benchmark report (src/report.rs) -/

/-- The final benchmark report. The latency histogram is modelled as the
multiset (list) of recorded durations. -/
structure BenchReport where
  concurrency : ℕ
  hist : List ℕ
  stats : IterStats
  status_dist : List (Status × ℕ)
  error_dist : List (String × ℕ)
  elapsed : ℕ

/-- `BenchReport::success_ratio`: `0.0` when no iterations were recorded,
otherwise the sum of `iters` over the `Success`-kind per-status counters,
divided by the overall iteration count. -/
def BenchReport.success_ratio (r : BenchReport) : ℚ :=
  if r.stats.overall.iters = 0 then 0
  else
    ((r.stats.by_status.filter (fun kv => decide (kv.1.kind = StatusKind.Success))).map
      (fun kv => (kv.2.iters : ℚ))).sum / (r.stats.overall.iters : ℚ)

/-- Number of iterations with `Success`-kind status recorded in the stats. -/
def successIters (st : IterStats) : ℕ :=
  ((st.by_status.filter (fun kv => decide (kv.1.kind = StatusKind.Success))).map
    (fun kv => kv.2.iters)).sum

theorem sum_map_natCast (l : List ℕ) : (l.map (Nat.cast : ℕ → ℚ)).sum = ((l.sum : ℕ) : ℚ) := by
  induction l with
  | nil => simp
  | cons hd tl ih =>
    simp only [List.map_cons, List.sum_cons, ih, List.sum_cons]
    push_cast
    ring

theorem sumCounters_iters (l : List Counter) :
    (sumCounters l).iters = (l.map Counter.iters).sum := by
  induction l with
  | nil => simp [sumCounters, Counter.zero]
  | cons hd tl ih => simp [sumCounters, Counter.add, List.foldr_cons] at *; omega

theorem sum_filter_le_sum (p : Status × Counter → Bool) (l : List (Status × Counter)) :
    ((l.filter p).map (fun kv => kv.2.iters)).sum ≤ (l.map (fun kv => kv.2.iters)).sum := by
  induction l with
  | nil => simp
  | cons hd tl ih =>
    by_cases hp : p hd
    · rw [List.filter_cons_of_pos hp]
      simp only [List.map_cons, List.sum_cons]
      exact Nat.add_le_add_left ih _
    · rw [List.filter_cons_of_neg (by simpa using hp)]
      simp only [List.map_cons, List.sum_cons]
      exact le_trans ih (Nat.le_add_left _ _)

theorem successIters_le_overall (st : IterStats) (h : StatsInv st) :
    successIters st ≤ st.overall.iters := by
  rw [h, sumCounters_iters]
  unfold successIters
  calc ((st.by_status.filter _).map (fun kv => kv.2.iters)).sum
      ≤ (st.by_status.map (fun kv => kv.2.iters)).sum := sum_filter_le_sum _ _
    _ = ((st.by_status.map Prod.snd).map Counter.iters).sum := by
        rw [List.map_map]; rfl

/-- C10: `success_ratio` returns `0` when no iterations were recorded, and for
a report satisfying the per-status sum invariant it equals the number of
`Success`-kind iterations over the total, a value in `[0, 1]`. -/
theorem success_ratio_in_unit_interval (r : BenchReport) :
    (r.stats.overall.iters = 0 → r.success_ratio = 0) ∧
    (StatsInv r.stats →
      r.success_ratio = (successIters r.stats : ℚ) / (r.stats.overall.iters : ℚ) ∧
      0 ≤ r.success_ratio ∧ r.success_ratio ≤ 1) := by
  constructor
  · intro h
    simp [BenchReport.success_ratio, h]
  · intro hinv
    by_cases h0 : r.stats.overall.iters = 0
    · have hle := successIters_le_overall r.stats hinv
      rw [h0] at hle
      have hsz : successIters r.stats = 0 := Nat.le_zero.mp hle
      refine ⟨?_, ?_, ?_⟩ <;> simp [BenchReport.success_ratio, h0, hsz]
    · have hform : r.success_ratio = (successIters r.stats : ℚ) / (r.stats.overall.iters : ℚ) := by
        unfold BenchReport.success_ratio successIters
        rw [if_neg h0]
        congr 1
        rw [← sum_map_natCast, List.map_map]
        rfl
      have hle := successIters_le_overall r.stats hinv
      have hpos : (0 : ℚ) < (r.stats.overall.iters : ℚ) := by
        exact_mod_cast Nat.pos_of_ne_zero h0
      refine ⟨hform, ?_, ?_⟩
      · rw [hform]
        exact div_nonneg (by positivity) (le_of_lt hpos)
      · rw [hform]
        rw [div_le_one hpos]
        exact_mod_cast hle

/-- A concrete report used as a witness input: one successful iteration. -/
def demoReport : BenchReport :=
  { concurrency := 1
    hist := [3]
    stats := IterStats.record IterStats.new
      { duration := 3, status := ⟨StatusKind.Success, 200⟩, bytes := 7, items := 2 }
    status_dist := [(⟨StatusKind.Success, 200⟩, 1)]
    error_dist := []
    elapsed := 5 }

/-- Witness for `success_ratio_in_unit_interval` at a concrete report. -/
theorem success_ratio_in_unit_interval_witness :
    StatsInv demoReport.stats ∧
    (demoReport.success_ratio =
        (successIters demoReport.stats : ℚ) / (demoReport.stats.overall.iters : ℚ) ∧
      0 ≤ demoReport.success_ratio ∧ demoReport.success_ratio ≤ 1) :=
  ⟨by unfold StatsInv; decide, (success_ratio_in_unit_interval demoReport).2 (by unfold StatsInv; decide)⟩

/-! ## Pausable logical clock (src/clock.rs)
Instants are modelled as `Nat` ticks; each operation receives the current
instant `now`. `Instant::elapsed()` becomes truncated subtraction. -/

/-- Clock status: paused, or running since a checkpoint instant. -/
inductive ClockStatus where
  | Paused
  | Running (since : ℕ)
deriving DecidableEq

/-- Internal clock state: status plus accumulated elapsed time. -/
structure InnerClock where
  status : ClockStatus
  elapsed : ℕ
deriving DecidableEq

/-- `Clock::pause`: folds `(now - checkpoint)` into the accumulated elapsed
time and sets `Paused`; no effect when already paused. -/
def InnerClock.pause (c : InnerClock) (now : ℕ) : InnerClock :=
  match c.status with
  | .Running checkpoint => { status := .Paused, elapsed := c.elapsed + (now - checkpoint) }
  | .Paused => c

/-- `Clock::resume`: sets `Running(now)` only if currently paused. -/
def InnerClock.resume (c : InnerClock) (now : ℕ) : InnerClock :=
  match c.status with
  | .Paused => { c with status := .Running now }
  | .Running _ => c

/-- `Clock::elapsed` read at instant `now`. -/
def InnerClock.elapsedAt (c : InnerClock) (now : ℕ) : ℕ :=
  match c.status with
  | .Paused => c.elapsed
  | .Running checkpoint => c.elapsed + (now - checkpoint)

/-- A timed clock call: pause, resume, or an `elapsed()` read. -/
inductive ClockEvent where
  | pause (t : ℕ)
  | resume (t : ℕ)
  | read (t : ℕ)
deriving DecidableEq

/-- The instant at which a clock event happens. -/
def ClockEvent.time : ClockEvent → ℕ
  | .pause t => t
  | .resume t => t
  | .read t => t

/-- Run a sequence of timed clock calls, returning the final state and the
list of values returned by the `elapsed()` reads, in call order. -/
def runEvents (c : InnerClock) : List ClockEvent → InnerClock × List ℕ
  | [] => (c, [])
  | .pause t :: es => runEvents (c.pause t) es
  | .resume t :: es => runEvents (c.resume t) es
  | .read t :: es =>
    let rest := runEvents c es
    (rest.1, c.elapsedAt t :: rest.2)

theorem elapsedAt_mono (c : InnerClock) {t1 t2 : ℕ} (h : t1 ≤ t2) :
    c.elapsedAt t1 ≤ c.elapsedAt t2 := by
  unfold InnerClock.elapsedAt
  cases c.status with
  | Paused => exact le_refl _
  | Running checkpoint => exact Nat.add_le_add_left (Nat.sub_le_sub_right h _) _

theorem pause_elapsedAt (c : InnerClock) (t : ℕ) :
    (c.pause t).elapsedAt t = c.elapsedAt t := by
  obtain ⟨st, el⟩ := c
  cases st <;> rfl

theorem resume_elapsedAt (c : InnerClock) (t : ℕ) :
    (c.resume t).elapsedAt t = c.elapsedAt t := by
  obtain ⟨st, el⟩ := c
  cases st <;> simp [InnerClock.resume, InnerClock.elapsedAt]

theorem runEvents_reads_lb (c : InnerClock) (es : List ClockEvent) (t : ℕ)
    (hchain : es.Chain' (fun a b => a.time ≤ b.time))
    (hhead : ∀ e ∈ es.head?, t ≤ e.time) :
    ((runEvents c es).2.Chain' (· ≤ ·)) ∧
    (∀ v ∈ (runEvents c es).2, c.elapsedAt t ≤ v) := by
  induction es generalizing c t with
  | nil => simp [runEvents]
  | cons e rest ih =>
    have hte : t ≤ e.time := hhead e rfl
    have hchain' : rest.Chain' (fun a b => a.time ≤ b.time) := hchain.tail
    have hhead' : ∀ e' ∈ rest.head?, e.time ≤ e'.time := by
      intro e' he'
      cases rest with
      | nil => simp at he'
      | cons r rs =>
        simp only [List.head?_cons, Option.mem_def, Option.some.injEq] at he'
        subst he'
        exact (List.chain'_cons.mp hchain).1
    cases e with
    | pause tp =>
      have := ih (c.pause tp) tp hchain' hhead'
      refine ⟨this.1, fun v hv => ?_⟩
      have h1 : c.elapsedAt t ≤ c.elapsedAt tp := elapsedAt_mono c hte
      have h2 : c.elapsedAt tp = (c.pause tp).elapsedAt tp := (pause_elapsedAt c tp).symm
      exact le_trans (h1.trans_eq h2) (this.2 v hv)
    | resume tr =>
      have := ih (c.resume tr) tr hchain' hhead'
      refine ⟨this.1, fun v hv => ?_⟩
      have h1 : c.elapsedAt t ≤ c.elapsedAt tr := elapsedAt_mono c hte
      have h2 : c.elapsedAt tr = (c.resume tr).elapsedAt tr := (resume_elapsedAt c tr).symm
      exact le_trans (h1.trans_eq h2) (this.2 v hv)
    | read tr =>
      have := ih c tr hchain' hhead'
      simp only [runEvents]
      constructor
      · rw [List.chain'_cons']
        exact ⟨fun v hv => this.2 v (by simpa using List.mem_of_mem_head? hv),
          this.1⟩
      · intro v hv
        rcases List.mem_cons.mp hv with h | h
        · subst h
          exact elapsedAt_mono c hte
        · exact le_trans (elapsedAt_mono c hte) (this.2 v h)

/-- C5: `pause` on a paused clock and `resume` on a running clock are no-ops;
after a `pause`, any two `elapsed()` reads return the same value; and over any
time-ordered sequence of pause/resume/elapsed calls the values returned by
`elapsed()` are non-decreasing. -/
theorem clock_pause_resume_discipline :
    (∀ (c : InnerClock) (now : ℕ), c.status = ClockStatus.Paused → c.pause now = c) ∧
    (∀ (c : InnerClock) (now since : ℕ), c.status = ClockStatus.Running since →
      c.resume now = c) ∧
    (∀ (c : InnerClock) (t0 t1 t2 : ℕ), (c.pause t0).elapsedAt t1 = (c.pause t0).elapsedAt t2) ∧
    (∀ (c : InnerClock) (es : List ClockEvent),
      es.Chain' (fun a b => a.time ≤ b.time) → ((runEvents c es).2.Chain' (· ≤ ·))) := by
  refine ⟨?_, ?_, ?_, ?_⟩
  · intro c now h
    unfold InnerClock.pause
    rw [h]
  · intro c now since h
    unfold InnerClock.resume
    rw [h]
  · intro c t0 t1 t2
    obtain ⟨st, el⟩ := c
    cases st <;> rfl
  · intro c es hchain
    cases es with
    | nil => simp [runEvents]
    | cons e rest =>
      exact (runEvents_reads_lb c (e :: rest) e.time hchain
        (by intro e' he'; simp only [List.head?_cons, Option.mem_def, Option.some.injEq] at he';
            subst he'; exact le_refl _)).1

/-- Witness for `clock_pause_resume_discipline` at concrete inputs. -/
theorem clock_pause_resume_discipline_witness :
    InnerClock.pause ⟨ClockStatus.Paused, 3⟩ 7 = ⟨ClockStatus.Paused, 3⟩ ∧
    InnerClock.resume ⟨ClockStatus.Running 2, 0⟩ 9 = ⟨ClockStatus.Running 2, 0⟩ ∧
    List.Chain' (· ≤ ·)
      ((runEvents ⟨ClockStatus.Paused, 0⟩
        [ClockEvent.resume 1, ClockEvent.read 2, ClockEvent.pause 4, ClockEvent.read 6]).2) :=
  ⟨clock_pause_resume_discipline.1 _ 7 rfl,
    clock_pause_resume_discipline.2.1 _ 9 2 rfl,
    clock_pause_resume_discipline.2.2.2 _ _
      (by simp [List.chain'_cons, ClockEvent.time])⟩

/-! ## Collectors (src/collector/silent.rs, src/collector/tui/mod.rs)
The result channel is modelled as the list of messages received before the
channel closes; `now` is the instant at which the channel is found closed
and the final `elapsed()` read happens. -/

/-- Mutable accumulator state of a collector's receive loop. -/
structure CollectorAcc where
  hist : List ℕ
  stats : IterStats
  status_dist : List (Status × ℕ)
  error_dist : List (String × ℕ)

/-- `*dist.entry(key).or_default() += 1` on the association-list model. -/
def bumpEntry {α : Type} [DecidableEq α] (m : List (α × ℕ)) (key : α) : List (α × ℕ) :=
  match m with
  | [] => [(key, 1)]
  | (k, n) :: rest => if k = key then (k, n + 1) :: rest else (k, n) :: bumpEntry rest key

/-- The common per-message body of both collectors' receive loops. -/
def collectResult (acc : CollectorAcc) (r : Except String IterReport) : CollectorAcc :=
  match r with
  | .ok report =>
    { acc with
      status_dist := bumpEntry acc.status_dist report.status
      hist := acc.hist ++ [report.duration]
      stats := acc.stats.record report }
  | .error e => { acc with error_dist := bumpEntry acc.error_dist e }

/-- The empty accumulator both collectors start from. -/
def emptyAcc : CollectorAcc := ⟨[], IterStats.new, [], []⟩

/-- `SilentCollector::run`: drain the channel, then read
`elapsed = clock.elapsed()` and build the report. The clock is returned
unchanged: the silent collector never pauses it. -/
def silentRun (clock : InnerClock) (msgs : List (Except String IterReport)) (now : ℕ)
    (concurrency : ℕ) : BenchReport × InnerClock :=
  let acc := msgs.foldl collectResult emptyAcc
  let elapsed := clock.elapsedAt now
  ({ concurrency := concurrency, hist := acc.hist, stats := acc.stats,
     status_dist := acc.status_dist, error_dist := acc.error_dist, elapsed := elapsed },
   clock)

/-- `TuiCollector::collect` + `run`: drain the channel; on seeing the channel
closed, pause the clock and mark the run finished; the `elapsed` field is the
`clock.elapsed()` read performed afterwards (at instant `later`). -/
def tuiRun (clock : InnerClock) (msgs : List (Except String IterReport)) (now later : ℕ)
    (concurrency : ℕ) : BenchReport × InnerClock :=
  let acc := msgs.foldl collectResult emptyAcc
  let clock' := clock.pause now
  let elapsed := clock'.elapsedAt later
  ({ concurrency := concurrency, hist := acc.hist, stats := acc.stats,
     status_dist := acc.status_dist, error_dist := acc.error_dist, elapsed := elapsed },
   clock')

/-- C2 counterexample: the silent collector does not pause the clock. Started
running at instant 0 and drained at instant 5, the clock it hands back is
still `Running`, contradicting the claim that every collector pauses the
clock before producing the report. -/
theorem silent_collector_leaves_clock_running :
    (silentRun ⟨ClockStatus.Running 0, 0⟩ [] 5 1).2 = ⟨ClockStatus.Running 0, 0⟩ ∧
    (silentRun ⟨ClockStatus.Running 0, 0⟩ [] 5 1).2.status ≠ ClockStatus.Paused := by
  constructor
  · rfl
  · intro h
    simp [silentRun] at h

/-- C2 (amended): once the channel is closed and drained, the TUI collector
pauses the clock and returns a report whose `elapsed` equals `clock.elapsed()`
read from the now-paused clock (so any later read gives the same value), while
the silent collector returns `elapsed = clock.elapsed()` read at that point
but leaves the clock state untouched, never pausing it. -/
theorem collectors_elapsed_at_drain (clock : InnerClock)
    (msgs : List (Except String IterReport)) (now later : ℕ) (concurrency : ℕ) :
    (tuiRun clock msgs now later concurrency).2.status = ClockStatus.Paused ∧
    (tuiRun clock msgs now later concurrency).2 = clock.pause now ∧
    (tuiRun clock msgs now later concurrency).1.elapsed =
      (tuiRun clock msgs now later concurrency).2.elapsedAt later ∧
    (tuiRun clock msgs now later concurrency).1.elapsed = clock.elapsedAt now ∧
    (silentRun clock msgs now concurrency).2 = clock ∧
    (silentRun clock msgs now concurrency).1.elapsed = clock.elapsedAt now := by
  obtain ⟨st, el⟩ := clock
  refine ⟨?_, rfl, rfl, ?_, rfl, rfl⟩
  · cases st <;> rfl
  · show (InnerClock.pause ⟨st, el⟩ now).elapsedAt later = InnerClock.elapsedAt ⟨st, el⟩ now
    cases st <;> rfl

/-! ## Rolling stats window (src/stats/window.rs)
The `VecDeque` is a list whose head is the front; `NonZeroUsize` becomes a
`Nat` size with the hypothesis `1 ≤ size`. The `unwrap` in `push` is made
explicit as an `Option`. -/

/-- A rolling window of counter buckets. -/
structure StatsWindow where
  buckets : List Counter
  size : ℕ
deriving DecidableEq

/-- `StatsWindow::rotate`: drop the back bucket when full, then push the new
bucket at the front. -/
def StatsWindow.rotate (w : StatsWindow) (bucket : Counter) : StatsWindow :=
  let bs := if w.buckets.length = w.size then w.buckets.dropLast else w.buckets
  { w with buckets := bucket :: bs }

/-- `StatsWindow::new`: start from an empty deque and rotate in one default
bucket. -/
def StatsWindow.new (size : ℕ) : StatsWindow :=
  StatsWindow.rotate { buckets := [], size := size } Counter.zero

/-- `StatsWindow::push`: fold the report into the front bucket; `none` models
the `unwrap` panic on an empty deque (unreachable under the invariant). -/
def StatsWindow.push (w : StatsWindow) (item : IterReport) : Option StatsWindow :=
  match w.buckets with
  | [] => none
  | c :: rest => some { w with buckets := c.record item :: rest }

/-- An operation on a stats window. -/
inductive WinOp where
  | push (r : IterReport)
  | rotate (c : Counter)
deriving DecidableEq

/-- Apply one window operation. -/
def applyWinOp (w : StatsWindow) : WinOp → Option StatsWindow
  | .push r => w.push r
  | .rotate c => some (w.rotate c)

/-- Apply a sequence of window operations. -/
def applyWinOps (w : StatsWindow) : List WinOp → Option StatsWindow
  | [] => some w
  | op :: ops => (applyWinOp w op).bind (fun w' => applyWinOps w' ops)

theorem rotate_length (w : StatsWindow) (c : Counter) (h1 : 1 ≤ w.buckets.length) :
    (w.rotate c).buckets.length =
      if w.buckets.length = w.size then w.buckets.length else w.buckets.length + 1 := by
  unfold StatsWindow.rotate
  by_cases hfull : w.buckets.length = w.size
  · simp only [if_pos hfull, List.length_cons, List.length_dropLast]
    omega
  · simp [if_neg hfull]

theorem applyWinOps_inv (ops : List WinOp) (w : StatsWindow)
    (h1 : 1 ≤ w.buckets.length) (h2 : w.buckets.length ≤ w.size) :
    ∃ w', applyWinOps w ops = some w' ∧ 1 ≤ w'.buckets.length ∧
      w'.buckets.length ≤ w'.size ∧ w'.size = w.size := by
  induction ops generalizing w with
  | nil => exact ⟨w, rfl, h1, h2, rfl⟩
  | cons op ops ih =>
    cases op with
    | push r =>
      obtain ⟨c, rest, hbs⟩ : ∃ c rest, w.buckets = c :: rest := by
        cases hb : w.buckets with
        | nil => rw [hb] at h1; simp at h1
        | cons c rest => exact ⟨c, rest, rfl⟩
      have hpush : w.push r = some { w with buckets := c.record r :: rest } := by
        unfold StatsWindow.push
        rw [hbs]
      obtain ⟨w', hrun, ha, hb', hc⟩ := ih { w with buckets := c.record r :: rest }
        (by simp) (by rw [hbs] at h2; simpa using h2)
      exact ⟨w', by simpa [applyWinOps, applyWinOp, hpush] using hrun, ha, hb', hc⟩
    | rotate c =>
      have hlen := rotate_length w c h1
      have ha : 1 ≤ (w.rotate c).buckets.length := by
        unfold StatsWindow.rotate
        simp
      have hb' : (w.rotate c).buckets.length ≤ (w.rotate c).size := by
        have hsz : (w.rotate c).size = w.size := rfl
        rw [hsz, hlen]
        by_cases hfull : w.buckets.length = w.size
        · simpa [hfull] using h2
        · simp only [if_neg hfull]
          omega
      obtain ⟨w', hrun, ha', hb'', hc⟩ := ih (w.rotate c) ha hb'
      exact ⟨w', by simpa [applyWinOps, applyWinOp] using hrun, ha', hb'', hc.trans rfl⟩

/-- C9: for a window of capacity `N ≥ 1`, any sequence of push/rotate
operations from `StatsWindow::new N` succeeds and keeps between 1 and `N`
buckets; `push` folds the report into the front bucket; `rotate` pushes the
new bucket at the front and drops the back bucket exactly when the window
already holds `N` buckets. -/
theorem stats_window_bounds :
    (∀ (N : ℕ) (ops : List WinOp), 1 ≤ N →
      ∃ w, applyWinOps (StatsWindow.new N) ops = some w ∧
        1 ≤ w.buckets.length ∧ w.buckets.length ≤ N) ∧
    (∀ (w : StatsWindow) (r : IterReport) (c : Counter) (rest : List Counter),
      w.buckets = c :: rest →
      w.push r = some { w with buckets := c.record r :: rest }) ∧
    (∀ (w : StatsWindow) (c : Counter),
      (w.rotate c).buckets =
        c :: (if w.buckets.length = w.size then w.buckets.dropLast else w.buckets)) := by
  refine ⟨?_, ?_, ?_⟩
  · intro N ops hN
    have hnew : (StatsWindow.new N).buckets = [Counter.zero] ∧ (StatsWindow.new N).size = N := by
      unfold StatsWindow.new StatsWindow.rotate
      constructor
      · simp only [List.length_nil]
        by_cases h : (0 : ℕ) = N
        · simp [← h]
        · simp [h]
      · rfl
    obtain ⟨w, hrun, ha, hb, hc⟩ := applyWinOps_inv ops (StatsWindow.new N)
      (by rw [hnew.1]; simp) (by rw [hnew.1, hnew.2]; simpa using hN)
    exact ⟨w, hrun, ha, by rw [← hnew.2, ← hc]; exact hb⟩
  · intro w r c rest hbs
    unfold StatsWindow.push
    rw [hbs]
  · intro w c
    rfl

/-- A concrete iteration report used as a witness input. -/
def demoIter : IterReport :=
  { duration := 1, status := ⟨StatusKind.Success, 200⟩, bytes := 0, items := 0 }

/-- Witness for `stats_window_bounds` at a concrete capacity and op list. -/
theorem stats_window_bounds_witness :
    1 ≤ 2 ∧
    (∃ w, applyWinOps (StatsWindow.new 2)
        [WinOp.rotate Counter.zero, WinOp.push demoIter, WinOp.rotate Counter.zero] = some w ∧
      1 ≤ w.buckets.length ∧ w.buckets.length ≤ 2) ∧
    (StatsWindow.new 2).push demoIter =
      some { buckets := [Counter.zero.record demoIter], size := 2 } :=
  ⟨by norm_num,
    stats_window_bounds.1 2 _ (by norm_num),
    stats_window_bounds.2.1 (StatsWindow.new 2) demoIter Counter.zero [] (by decide)⟩

/-! ## Baseline validation (src/baseline/mod.rs) -/

/-- Benchmark configuration recorded in a baseline. -/
structure BenchConfig where
  concurrency : ℕ
  duration_secs : Option ℚ
  iterations : Option ℕ
  warmup : ℕ
  rate_limit : Option ℕ
  actual_duration_secs : ℚ
deriving DecidableEq

/-- The CLI settings `Baseline::validate` reads (plus the run-shape settings
it deliberately ignores). -/
structure BenchCli where
  concurrency : ℕ
  duration : Option ℚ
  iterations : Option ℕ
  warmup : ℕ
  rate : Option ℕ
deriving DecidableEq

/-- A loaded baseline (the parts relevant to validation). -/
structure Baseline where
  schema_version : ℕ
  bench_config : BenchConfig
deriving DecidableEq

/-- `Baseline::validate`: reject on concurrency mismatch, then on rate-limit
mismatch; otherwise accept. -/
def Baseline.validate (b : Baseline) (cli : BenchCli) : Except String Unit :=
  if cli.concurrency ≠ b.bench_config.concurrency then
    Except.error "Concurrency mismatch: results are not comparable."
  else if cli.rate ≠ b.bench_config.rate_limit then
    Except.error "Rate limit mismatch: results are not comparable."
  else Except.ok ()

/-- C8: `Baseline::validate` errors iff the current concurrency differs from
the baseline's or the current rate limit differs from the baseline's; the
result never depends on duration, iteration or warmup settings on either
side. -/
theorem baseline_validate_iff_mismatch (b : Baseline) (cli : BenchCli) :
    ((∃ e, b.validate cli = Except.error e) ↔
      (cli.concurrency ≠ b.bench_config.concurrency ∨
       cli.rate ≠ b.bench_config.rate_limit)) ∧
    (∀ b' : Baseline,
      b'.bench_config.concurrency = b.bench_config.concurrency →
      b'.bench_config.rate_limit = b.bench_config.rate_limit →
      b'.validate cli = b.validate cli) ∧
    (∀ cli' : BenchCli,
      cli'.concurrency = cli.concurrency → cli'.rate = cli.rate →
      b.validate cli' = b.validate cli) := by
  refine ⟨?_, ?_, ?_⟩
  · unfold Baseline.validate
    by_cases hc : cli.concurrency = b.bench_config.concurrency <;>
      by_cases hr : cli.rate = b.bench_config.rate_limit <;>
      simp [hc, hr]
  · intro b' h1 h2
    unfold Baseline.validate
    rw [h1, h2]
  · intro cli' h1 h2
    unfold Baseline.validate
    rw [h1, h2]

/-- A concrete baseline used as a witness input. -/
def demoBaselineA : Baseline :=
  { schema_version := 1, bench_config := ⟨4, some 9, none, 7, none, 1⟩ }

/-- A second concrete baseline, differing from `demoBaselineA` only in the
duration, iteration and warmup settings. -/
def demoBaselineB : Baseline :=
  { schema_version := 1, bench_config := ⟨4, none, some 100, 0, none, 2⟩ }

/-- Concrete CLI settings used as a witness input. -/
def demoCli : BenchCli := ⟨4, some 3, none, 5, none⟩

/-- Witness for `baseline_validate_iff_mismatch` at concrete inputs. -/
theorem baseline_validate_iff_mismatch_witness :
    demoBaselineB.validate demoCli = demoBaselineA.validate demoCli :=
  (baseline_validate_iff_mismatch demoBaselineA demoCli).2.1 demoBaselineB rfl rfl

/-! ## Runner warmup exclusion (src/runner.rs)
The sequential skeleton of an uncancelled worker's run: the warmup loop calls
`bench` and discards the outcome; the bench loop calls `bench` and forwards
every outcome on the result channel. `bench` is modelled as a map `g` from
the global call index (warmup and bench combined, in call order) to the
iteration outcome. -/

/-- The warmup loop: perform the remaining warmup iterations, recording which
call indices ran; the iteration outcomes are intentionally discarded and
never sent to the result channel. -/
def warmupPhase (g : ℕ → Except String IterReport) (callIdx : ℕ) : ℕ → List ℕ
  | 0 => []
  | n + 1 =>
    let _discarded := g callIdx
    callIdx :: warmupPhase g (callIdx + 1) n

/-- The bench loop: perform the remaining bench iterations, recording the call
indices that ran and forwarding every outcome (success or error) to the
result channel. -/
def benchPhase (g : ℕ → Except String IterReport) (callIdx : ℕ) :
    ℕ → List ℕ × List (Except String IterReport)
  | 0 => ([], [])
  | n + 1 =>
    let res := g callIdx
    let rest := benchPhase g (callIdx + 1) n
    (callIdx :: rest.1, res :: rest.2)

/-- `Runner::run` for one worker without cancellation: warmup iterations
first (results discarded), then the bench iterations (results forwarded).
Returns the call indices that ran and the messages sent on the channel. -/
def runnerRun (g : ℕ → Except String IterReport) (warmups iterations : ℕ) :
    List ℕ × List (Except String IterReport) :=
  let warmupCalls := warmupPhase g 0 warmups
  let benchRes := benchPhase g warmups iterations
  (warmupCalls ++ benchRes.1, benchRes.2)

theorem warmupPhase_eq (g : ℕ → Except String IterReport) (c n : ℕ) :
    warmupPhase g c n = (List.range n).map (fun k => c + k) := by
  induction n generalizing c with
  | zero => rfl
  | succ n ih =>
    rw [warmupPhase, List.range_succ_eq_map]
    simp only [List.map_cons, List.map_map, Nat.add_zero, ih]
    congr 1
    exact List.map_congr_left fun k _ => by simp only [Function.comp_apply]; omega

theorem benchPhase_eq (g : ℕ → Except String IterReport) (c n : ℕ) :
    benchPhase g c n =
      ((List.range n).map (fun k => c + k), (List.range n).map (fun k => g (c + k))) := by
  induction n generalizing c with
  | zero => rfl
  | succ n ih =>
    rw [benchPhase, List.range_succ_eq_map]
    simp only [List.map_cons, List.map_map, Nat.add_zero, ih, Prod.mk.injEq]
    constructor
    · congr 1
      exact List.map_congr_left fun k _ => by simp only [Function.comp_apply]; omega
    · congr 1
      exact List.map_congr_left fun k _ => by
        simp only [Function.comp_apply]
        congr 1
        omega

/-- C7: warmup iteration results are never sent on the result channel: the
messages sent are exactly the outcomes of the `iterations` bench-phase calls
(every completed bench result, success or error, is forwarded), the warmup
calls do run first (call indices `0..warmups`), and the channel content is
unaffected by what the warmup iterations returned. -/
theorem warmup_results_never_forwarded (g : ℕ → Except String IterReport)
    (warmups iterations : ℕ) :
    (runnerRun g warmups iterations).2 =
      (List.range iterations).map (fun k => g (warmups + k)) ∧
    (runnerRun g warmups iterations).1 = List.range (warmups + iterations) ∧
    (∀ g' : ℕ → Except String IterReport, (∀ i, warmups ≤ i → g i = g' i) →
      (runnerRun g warmups iterations).2 = (runnerRun g' warmups iterations).2) := by
  refine ⟨?_, ?_, ?_⟩
  · unfold runnerRun
    rw [benchPhase_eq]
  · unfold runnerRun
    rw [benchPhase_eq, warmupPhase_eq]
    simp only
    rw [List.range_add]
    congr 1
    simp
  · intro g' hg
    unfold runnerRun
    rw [benchPhase_eq, benchPhase_eq]
    simp only
    exact List.map_congr_left fun k _ => hg _ (Nat.le_add_right _ _)

/-- Witness for `warmup_results_never_forwarded`: two workloads differing only
in their warmup-phase outcomes send the same channel content. -/
theorem warmup_results_never_forwarded_witness :
    (runnerRun (fun i => if i < 2 then Except.error "warmup noise" else Except.ok demoIter) 2 3).2 =
      (List.range 3).map
        (fun k => (fun i => if i < 2 then Except.error "warmup noise" else Except.ok demoIter) (2 + k)) ∧
    (runnerRun (fun i => if i < 2 then Except.error "warmup noise" else Except.ok demoIter) 2 3).2 =
      (runnerRun (fun _ => Except.ok demoIter) 2 3).2 :=
  ⟨(warmup_results_never_forwarded
      (fun i => if i < 2 then Except.error "warmup noise" else Except.ok demoIter) 2 3).1,
    (warmup_results_never_forwarded
      (fun i => if i < 2 then Except.error "warmup noise" else Except.ok demoIter) 2 3).2.2
      (fun _ => Except.ok demoIter)
      (fun i hi => by simp [Nat.not_lt.mpr hi])⟩

end Rlt
